import Mathlib

/-!
Shallow embedding of the log-scan agent layer:
  * `src/agents/agent.py` — schema validation and error normalization
    (`_validate_with_model`, `_lookup_with_model`, `_normalize_pydantic_errors`);
    the same logic is duplicated verbatim in `src/agents/lib/agent.py`.
  * `src/agents/tooled.py` — the concrete `TooledConfig` schema.
  * `src/agents/Context.py` — dependency injection (`inject`, `_matches_type`).
  * `src/agents/lib/agent.py` — tool merging (`_merge_tools`).
  * `src/agents/simple.py` — cost tracing (`CostTracingHandler`, `match_pricing`).

JSON-like runtime values are modelled by `Value`; Python floats are modelled
as exact rationals.  Pydantic model validation is embedded over explicit
field descriptions (`FieldSpec`), matching pydantic v2 behaviour on the
shapes the repository uses (string/float/int fields with optional defaults
and ge/le bounds, extra keys ignored, defaults not re-validated).
-/

/-- ASCII lowercase of one character (Python `str.lower` on the ASCII range). -/
def asciiLower (c : Char) : Char :=
  if 65 ≤ c.toNat ∧ c.toNat ≤ 90 then Char.ofNat (c.toNat + 32) else c

/-- Python `s.lower()` (ASCII fragment, which is all the code compares). -/
def lowerStr (s : String) : String := String.mk (s.data.map asciiLower)

/-- Python `s.startswith(p)`. -/
def startsWithStr (s p : String) : Bool := p.data.isPrefixOf s.data

/-- Python `s.endswith(p)`. -/
def endsWithStr (s p : String) : Bool := p.data.isSuffixOf s.data

/-- JSON-like runtime value (Python floats modelled as exact rationals). -/
inductive Value where
  | vnull
  | vbool (b : Bool)
  | vint (n : ℤ)
  | vfloat (q : ℚ)
  | vstr (s : String)
deriving Repr, DecidableEq

/-- Declared semantic type of a schema field. -/
inductive FieldType where
  | fstr
  | ffloat
  | fint
deriving Repr, DecidableEq

/-- One declared field of a pydantic model: name, type, optional default,
optional numeric bounds (`ge` / `le`). -/
structure FieldSpec where
  name : String
  ftype : FieldType
  fdefault : Option Value
  geq : Option ℚ
  leq : Option ℚ
deriving Repr, DecidableEq

/-- A pydantic model: class name plus ordered field declarations. -/
structure SchemaModel where
  mname : String
  fields : List FieldSpec
deriving Repr, DecidableEq

/-- A raw pydantic-v2 error item, as produced by `ValidationError.errors()`:
`{type, loc, msg, ctx}`. -/
structure PydError where
  etype : String
  loc : List String
  msg : String
  ctx : Option (String × ℚ)
deriving Repr, DecidableEq

/-- A validated model instance (`BaseModel` object): its class name and its
field assignments (`model_dump`). -/
structure ModelInst where
  mname : String
  vals : List (String × Value)
deriving Repr, DecidableEq

/-- First-match lookup in an association list (Python `dict.get`). -/
def lookupKey (d : List (String × Value)) (k : String) : Option Value :=
  (d.find? (fun p => p.1 = k)).map (·.2)

/-- Numeric view of a value for ge/le bound checks. -/
def numOf : Value → Option ℚ
  | .vint n => some (n : ℚ)
  | .vfloat q => some q
  | _ => none

/-- Check the declared `ge`/`le` bounds of `f` against the number `q`,
returning the coerced value on success (pydantic v2 `greater_than_equal` /
`less_than_equal` violations). -/
def boundCheck (f : FieldSpec) (q : ℚ) (v : Value) : Except PydError Value :=
  match f.geq with
  | some g =>
      if q < g then
        .error ⟨"greater_than_equal", [f.name],
          "Input should be greater than or equal to the declared minimum",
          some ("ge", g)⟩
      else
        match f.leq with
        | some l =>
            if l < q then
              .error ⟨"less_than_equal", [f.name],
                "Input should be less than or equal to the declared maximum",
                some ("le", l)⟩
            else .ok v
        | none => .ok v
  | none =>
      match f.leq with
      | some l =>
          if l < q then
            .error ⟨"less_than_equal", [f.name],
              "Input should be less than or equal to the declared maximum",
              some ("le", l)⟩
          else .ok v
      | none => .ok v

/-- Validate a supplied value against one field declaration (pydantic v2 lax
mode on the shapes the repository uses: strings for `str` fields, ints or
floats for `float` fields, ints for `int` fields). -/
def parseField (f : FieldSpec) (v : Value) : Except PydError Value :=
  match f.ftype, v with
  | .fstr, .vstr s => .ok (.vstr s)
  | .fstr, _ =>
      .error ⟨"string_type", [f.name], "Input should be a valid string", none⟩
  | .ffloat, .vfloat q => boundCheck f q (.vfloat q)
  | .ffloat, .vint n => boundCheck f (n : ℚ) (.vfloat (n : ℚ))
  | .ffloat, _ =>
      .error ⟨"float_type", [f.name], "Input should be a valid number", none⟩
  | .fint, .vint n => boundCheck f (n : ℚ) (.vint n)
  | .fint, _ =>
      .error ⟨"int_type", [f.name], "Input should be a valid integer", none⟩

/-- Resolve one field from the payload map: use the supplied value (validated)
or the default; a required field with no value yields pydantic's `missing`
error (`msg` is `"Field required"`). -/
def fieldResult (f : FieldSpec) (d : List (String × Value)) : Except PydError Value :=
  match lookupKey d f.name with
  | some v => parseField f v
  | none =>
      match f.fdefault with
      | some dv => .ok dv
      | none => .error ⟨"missing", [f.name], "Field required", none⟩

/-- The error (if any) that field `f` contributes when validating map `d`. -/
def fieldError (d : List (String × Value)) (f : FieldSpec) : Option PydError :=
  match fieldResult f d with
  | .error e => some e
  | .ok _ => none

/-- The value assigned to field `f` on the success path. -/
def fieldValue (d : List (String × Value)) (f : FieldSpec) : Value :=
  match fieldResult f d with
  | .ok v => v
  | .error _ => .vnull

/-- All field-level errors reported when validating map `d` against `m`,
in schema declaration order (pydantic collects every failing field). -/
def modelErrors (m : SchemaModel) (d : List (String × Value)) : List PydError :=
  m.fields.filterMap (fieldError d)

/-- `model(**d)`: construct an instance of `m` from keyword map `d`, or fail
with the collected `ValidationError` items. -/
def modelValidate (m : SchemaModel) (d : List (String × Value)) :
    Except (List PydError) ModelInst :=
  if modelErrors m d = [] then
    .ok ⟨m.mname, m.fields.map (fun f => (f.name, fieldValue d f))⟩
  else .error (modelErrors m d)

/-- The payload argument of `_validate_with_model`: a model instance, a dict,
`None`, a list, or some other Python object. -/
inductive Payload where
  | pnone
  | pdict (d : List (String × Value))
  | pinst (i : ModelInst)
  | plist (l : List Value)
  | pother (tag : String)
deriving Repr, DecidableEq

/-- Python `payload not in (None, {}, [])`, negated: true exactly for `None`,
the empty dict and the empty list. -/
def pyEmptyish : Payload → Bool
  | .pnone => true
  | .pdict d => d.isEmpty
  | .plist l => l.isEmpty
  | _ => false

/-- The meta block `{"type": ..., "ctx": ...}` of a normalized error item. -/
structure MetaInfo where
  mtype : String
  mctx : Option (String × ℚ)
deriving Repr, DecidableEq

/-- A normalized `ValidationErrorItem`:
`{code, title, detail, source: {pointer}, meta}`. -/
structure ErrItem where
  code : String
  title : String
  detail : String
  pointer : String
  meta : Option MetaInfo
deriving Repr, DecidableEq

/-- The missing-field heuristic of `_normalize_pydantic_errors` (agent.py
line 48): the violation type ends in `".missing"`, is exactly `"missing"`,
or the lower-cased message starts with `"field required"`. -/
def isMissingErr (e : PydError) : Bool :=
  endsWithStr e.etype ".missing" || e.etype == "missing" ||
    startsWithStr (lowerStr e.msg) "field required"

/-- Normalize one raw pydantic error item (`_normalize_pydantic_errors` body). -/
def normalizeOne (w : String) (e : PydError) : ErrItem :=
  { code := if isMissingErr e then w ++ ".missing" else w ++ ".validation"
  , title := if isMissingErr e then "Campo requerido ausente" else "Error de validación"
  , detail := e.msg
  , pointer := if e.loc.isEmpty then "/" else "/" ++ String.intercalate "/" e.loc
  , meta := some ⟨e.etype, e.ctx⟩ }

/-- `_normalize_pydantic_errors(where, ve)`. -/
def normalize_pydantic_errors (w : String) (es : List PydError) : List ErrItem :=
  es.map (normalizeOne w)

/-- The `<where>.not_supported` error item raised when an agent declares no
schema but a non-empty payload is supplied. -/
def notSupportedItem (cn w : String) : ErrItem :=
  { code := w ++ ".not_supported"
  , title := w ++ " no admitido"
  , detail := cn ++ " no acepta " ++ w ++ "."
  , pointer := "/" ++ w
  , meta := none }

/-- Outcome of `_validate_with_model`: a validated instance (or `None`),
a raised `ValueError` carrying the structured report, or a raised
`TypeError`. -/
inductive VResult where
  | ok (v : Option ModelInst)
  | fail (errors : List ErrItem)
  | typeError
deriving Repr, DecidableEq

/-- `_validate_with_model(model, payload, where)` with `cn` the agent class
name (used in the `not_supported` detail). -/
def validate_with_model (cn : String) (model : Option SchemaModel)
    (payload : Payload) (w : String) : VResult :=
  match model with
  | none =>
      if pyEmptyish payload then .ok none
      else .fail [notSupportedItem cn w]
  | some m =>
      match payload with
      | .pinst i =>
          if i.mname = m.mname then .ok (some i)
          else .typeError
      | .pnone =>
          match modelValidate m [] with
          | .ok inst => .ok (some inst)
          | .error es => .fail (normalize_pydantic_errors w es)
      | .pdict d =>
          match modelValidate m d with
          | .ok inst => .ok (some inst)
          | .error es => .fail (normalize_pydantic_errors w es)
      | .plist _ => .typeError
      | .pother _ => .typeError

/-- Outcome of `_lookup_with_model`: the returned report dict, or a
propagating `TypeError` (the only uncaught path). -/
inductive LookupOutcome where
  | report (ok : Bool) (value : Option (List (String × Value))) (errors : List ErrItem)
  | typeErr
deriving Repr, DecidableEq

/-- `_lookup_with_model(model, payload, where)`: non-throwing wrapper that
catches the `ValueError` report but lets `TypeError` propagate. -/
def lookup_with_model (cn : String) (model : Option SchemaModel)
    (payload : Payload) (w : String) : LookupOutcome :=
  match model with
  | none =>
      if pyEmptyish payload then .report true none []
      else .report false none [notSupportedItem cn w]
  | some m =>
      match validate_with_model cn (some m) payload w with
      | .ok v => .report true (v.map (·.vals)) []
      | .fail es => .report false none es
      | .typeError => .typeErr

/-- The `TooledConfig` schema of `src/agents/tooled.py`: `model` (default
`"gpt-4o-mini"`), `temperature` (float, default 0.0, ge 0.0, le 2.0),
`max_tokens` (int, default 256, ge 1, le 8192), `lang` (default `"es"`),
`system_prompt` (default system text). -/
def tooledConfig : SchemaModel :=
  { mname := "TooledConfig"
  , fields :=
      [ ⟨"model", .fstr, some (.vstr "gpt-4o-mini"), none, none⟩
      , ⟨"temperature", .ffloat, some (.vfloat 0), some 0, some 2⟩
      , ⟨"max_tokens", .fint, some (.vint 256), some 1, some 8192⟩
      , ⟨"lang", .fstr, some (.vstr "es"), none, none⟩
      , ⟨"system_prompt", .fstr,
          some (.vstr "Eres un agente útil. Usa herramientas cuando sea necesario."),
          none, none⟩ ] }

/-- A one-field schema with a required string field `"f"` and no default,
used to exercise the missing/validation paths on concrete inputs. -/
def reqFieldModel : SchemaModel := ⟨"ReqField", [⟨"f", .fstr, none, none, none⟩]⟩

/-! ## Dependency injection (`src/agents/Context.py`) -/

/-- A Python type annotation as used in dependency schemas: a class, the
`NoneType` class, a `Union[...]` (so `Optional[T]` is `tunion [T, noneType]`),
or `typing.Any`. -/
inductive TypeExpr where
  | cls (nm : String)
  | noneType
  | anyT
  | tunion (args : List TypeExpr)

/-- Python `a is type(None)` for an annotation argument. -/
def isNoneType : TypeExpr → Bool
  | .noneType => true
  | _ => false

/-- `_unwrap_optional(t)`: if `t` is a `Union` whose non-`None` arguments are
a single type, return that type; otherwise return `t`. -/
def unwrap_optional (t : TypeExpr) : TypeExpr :=
  match t with
  | .tunion args =>
      match args.filter (fun a => !isNoneType a) with
      | [a] => a
      | _ => t
  | _ => t

/-- Python `getattr(T, "__name__", "")` on an annotation (`Union` objects
have no `__name__`). -/
def typeName : TypeExpr → String
  | .cls nm => nm
  | .noneType => "NoneType"
  | .anyT => "Any"
  | .tunion _ => ""

/-- A utility instance in the context pool: `ancestors` lists every class
name for which `isinstance` holds, `hasExpand` is
`callable(getattr(obj, "expand", None))`. -/
structure Util where
  uid : ℕ
  ancestors : List String
  hasExpand : Bool
deriving Repr, DecidableEq

/-- Python `isinstance(obj, T)`: `some b` when the check runs, `none` when it
raises `TypeError` (typing constructs such as `Union` or `Any`). -/
def isInstanceCheck (obj : Util) (t : TypeExpr) : Option Bool :=
  match t with
  | .cls nm => some (obj.ancestors.contains nm)
  | .noneType => some false
  | .anyT => none
  | .tunion _ => none

/-- `_matches_type(instance, expected_type)`: `Any` matches everything; else
unwrap the optional wrapper, try `isinstance` (a raised `TypeError` is
swallowed), and fall back to the `RAGExpander` duck-type check on a callable
`expand` attribute. -/
def matches_type (obj : Util) (expected : TypeExpr) : Bool :=
  match expected with
  | .anyT => true
  | _ =>
      let T := unwrap_optional expected
      match isInstanceCheck obj T with
      | some true => true
      | _ => if typeName T = "RAGExpander" then obj.hasExpand else false

/-- The spec's own wording of the matching rule: the entry is an instance of
the (optional-unwrapped) expected type, or — only as a fallback when the
instance check fails and the expected type is named `RAGExpander` — the
entry exposes a callable `expand` attribute. -/
def matchesTypeSpec (obj : Util) (expected : TypeExpr) : Bool :=
  match expected with
  | .anyT => true
  | _ =>
      let T := unwrap_optional expected
      if isInstanceCheck obj T == some true then true
      else if typeName T = "RAGExpander" then obj.hasExpand
      else false

/-- One declared dependency slot: field name, annotation, and whether the
field declaration carries a default. -/
structure DepField where
  name : String
  annot : TypeExpr
  hasDefault : Bool

/-- A dependency schema (`deps_model`): its class name and ordered slots. -/
structure DepsModel where
  dname : String
  dfields : List DepField

/-- First-match lookup in a utility assignment map. -/
def lookupUtil (d : List (String × Util)) (k : String) : Option Util :=
  (d.find? (fun p => p.1 = k)).map (·.2)

/-- The kwargs map built by `Context.inject`: for each declared slot, the
first utility in the pool (registration order) matching the annotation;
slots with no match are left unset. -/
def injectValues (pool : List Util) (m : DepsModel) : List (String × Util) :=
  m.dfields.filterMap
    (fun f => (pool.find? (fun o => matches_type o f.annot)).map (fun u => (f.name, u)))

mutual

/-- Pydantic-core acceptance of a slot value against an annotation
(`is_instance_schema` semantics; `Optional` accepts `None`). -/
def annotAccepts : TypeExpr → Option Util → Bool
  | .anyT, _ => true
  | .noneType, v => v.isNone
  | .cls nm, v =>
      match v with
      | some u => u.ancestors.contains nm
      | none => false
  | .tunion args, v => annotAcceptsList args v

/-- Disjunction of `annotAccepts` over the arguments of a `Union`. -/
def annotAcceptsList : List TypeExpr → Option Util → Bool
  | [], _ => false
  | a :: as, v => annotAccepts a v || annotAcceptsList as v

end

/-- Resolve one dependency slot at construction time: a provided value is
validated by instance check; an unset slot uses its default (`None`,
not re-validated) or raises pydantic's `missing` violation. -/
def depFieldResult (values : List (String × Util)) (f : DepField) :
    Except PydError (Option Util) :=
  match lookupUtil values f.name with
  | some u =>
      if annotAccepts f.annot (some u) then .ok (some u)
      else .error ⟨"is_instance_of", [f.name],
        "Input should be an instance of the declared type", none⟩
  | none =>
      if f.hasDefault then .ok none
      else .error ⟨"missing", [f.name], "Field required", none⟩

/-- All slot-level errors of `deps_model(**values)`. -/
def depErrors (values : List (String × Util)) (m : DepsModel) : List PydError :=
  m.dfields.filterMap
    (fun f => match depFieldResult values f with
      | .error e => some e
      | .ok _ => none)

/-- `deps_model(**values)`: the constructed dependency object (slot name to
assigned utility or defaulted `None`), or the `ValidationError` that
`Context.inject` re-raises. -/
def depConstruct (m : DepsModel) (values : List (String × Util)) :
    Except (List PydError) (List (String × Option Util)) :=
  if depErrors values m = [] then
    .ok (m.dfields.map (fun f => (f.name,
      match depFieldResult values f with
      | .ok v => v
      | .error _ => none)))
  else .error (depErrors values m)

/-- `Context.inject(deps_model)` over utility pool `pool`: `None` when no
dependency schema is declared, otherwise construct the dependency object
from the first-match assignments. -/
def inject (pool : List Util) (dm : Option DepsModel) :
    Option (Except (List PydError) (List (String × Option Util))) :=
  match dm with
  | none => none
  | some m => some (depConstruct m (injectValues pool m))

/-- The `TooledDeps` schema of `src/agents/tooled.py`:
`memory : Optional[BaseMemory] = None` and
`rag : RAGExpander = Field(default=None)`. -/
def tooledDeps : DepsModel :=
  ⟨"TooledDeps",
    [ ⟨"memory", .tunion [.cls "BaseMemory", .noneType], true⟩
    , ⟨"rag", .cls "RAGExpander", true⟩ ]⟩

/-- A dependency schema with one required `RAGExpander` slot and no default,
used to exercise the unmatched-required-slot path on concrete inputs. -/
def reqDeps : DepsModel := ⟨"ReqDeps", [⟨"rag", .cls "RAGExpander", false⟩]⟩

/-! ## Tool merging (`src/agents/lib/agent.py`) -/

/-- A LangChain tool as far as merging is concerned: its `name` and an
identity tag to tell distinct instances apart. -/
structure BTool where
  tname : String
  tid : ℕ
deriving Repr, DecidableEq

/-- Python dict assignment `d[k] = v`: overwrite in place if the key exists
(keeping its position), else append (insertion order preserved). -/
def pyDictInsert {α : Type} (d : List (String × α)) (k : String) (v : α) :
    List (String × α) :=
  if d.any (fun p => p.1 = k) then
    d.map (fun p => if p.1 = k then (k, v) else p)
  else d ++ [(k, v)]

/-- Generic first-match lookup in an insertion-ordered dict
(Python `dict.get`). -/
def dictGet {α : Type} (d : List (String × α)) (k : String) : Option α :=
  (d.find? (fun p => p.1 = k)).map (·.2)

/-- The name-keyed dict built by `_merge_tools`:
`by = {t.name: t for t in prefer_left}` followed by
`for t in right: if t.name not in by: by[t.name] = t`. -/
def mergeDict (prefer_left right : List BTool) : List (String × BTool) :=
  right.foldl
    (fun d t => if d.any (fun p => p.1 = t.tname) then d else d ++ [(t.tname, t)])
    (prefer_left.foldl (fun d t => pyDictInsert d t.tname t) [])

/-- `_merge_tools(prefer_left, right)`: the values of the merged dict in
insertion order. -/
def merge_tools (prefer_left right : List BTool) : List BTool :=
  (mergeDict prefer_left right).map (·.2)

/-- Last tool with a given name in a list (what a dict comprehension keeps
on duplicate keys). -/
def lastByName : List BTool → String → Option BTool
  | [], _ => none
  | t :: ts, n =>
      match lastByName ts n with
      | some u => some u
      | none => if t.tname = n then some t else none

/-- First tool with a given name in a list. -/
def firstByName (ts : List BTool) (n : String) : Option BTool :=
  ts.find? (fun t => t.tname = n)

/-! ## Cost tracing (`src/agents/simple.py`) -/

/-- The static price table `PRICING_PER_1K` (USD per 1000 tokens:
input price, output price), in source insertion order. -/
def PRICING_PER_1K : List (String × (ℚ × ℚ)) :=
  [ ("gpt-4o-mini", (0.15, 0.60))
  , ("gpt-4o", (5.00, 15.00))
  , ("gpt-4.1-mini", (0.30, 1.20))
  , ("gpt-4.1", (5.00, 15.00))
  , ("o4-mini", (0.30, 1.20))
  , ("o4", (5.00, 15.00)) ]

/-- `match_pricing(model_name)`: exact dict hit, else the first table key
(insertion order) that is a prefix of the model name, else `(0.0, 0.0)`. -/
def match_pricing (model_name : String) : ℚ × ℚ :=
  match PRICING_PER_1K.find? (fun p => p.1 = model_name) with
  | some p => p.2
  | none =>
      match PRICING_PER_1K.find? (fun p => startsWithStr model_name p.1) with
      | some p => p.2
      | none => (0, 0)

/-- The spec's description of the price lookup: exact match, else the
longest table key that is a prefix of the model name, else zero-cost. -/
def match_pricing_spec (model_name : String) : ℚ × ℚ :=
  match PRICING_PER_1K.find? (fun p => p.1 = model_name) with
  | some p => p.2
  | none =>
      let hits := PRICING_PER_1K.filter (fun p => startsWithStr model_name p.1)
      match hits.foldl
        (fun (acc : Option (String × (ℚ × ℚ))) p =>
          match acc with
          | none => some p
          | some q => if q.1.length < p.1.length then some p else some q) none with
      | some p => p.2
      | none => (0, 0)

/-- `estimate_cost_usd(model, prompt_toks, completion_toks)`. -/
def estimate_cost_usd (model : String) (prompt_toks completion_toks : ℕ) : ℚ :=
  (prompt_toks : ℚ) / 1000 * (match_pricing model).1
    + (completion_toks : ℚ) / 1000 * (match_pricing model).2

/-- Round to the nearest integer, ties to even (Python `round`). -/
def roundHalfEven (q : ℚ) : ℤ :=
  if q - ⌊q⌋ < 1/2 then ⌊q⌋
  else if 1/2 < q - ⌊q⌋ then ⌊q⌋ + 1
  else if 2 ∣ ⌊q⌋ then ⌊q⌋ else ⌊q⌋ + 1

/-- Python `round(q, 8)` on the idealized exact value. -/
def pyRound8 (q : ℚ) : ℚ := (roundHalfEven (q * 100000000) : ℚ) / 100000000

/-- Python `int(q)`: truncation toward zero. -/
def pyInt (q : ℚ) : ℤ := if 0 ≤ q then ⌊q⌋ else -⌊-q⌋

/-- A `usage` / `token_usage` block; absent keys (and Python-falsy values
collapsed with `or`) are `none`. -/
structure TokenUsage where
  prompt_tokens : Option ℕ
  completion_tokens : Option ℕ
  total_tokens : Option ℕ
deriving Repr, DecidableEq

/-- An `AIMessage.response_metadata` dict (`id` is the `"id"` key). -/
structure RespMeta where
  model : Option String
  model_name : Option String
  id : Option String
  request_id : Option String
  token_usage : Option TokenUsage
  usage : Option TokenUsage
deriving Repr, DecidableEq

/-- A generation's message: its text content and metadata. -/
structure GenMsg where
  content : String
  response_metadata : Option RespMeta
deriving Repr, DecidableEq

/-- A generation's `generation_info` dict. -/
structure GenInfo where
  token_usage : Option TokenUsage
  usage : Option TokenUsage
deriving Repr, DecidableEq

/-- One generation of an `LLMResult`. -/
structure Generation where
  message : Option GenMsg
  generation_info : Option GenInfo
deriving Repr, DecidableEq

/-- The `llm_output` dict of an `LLMResult`; `openai_usage` stands for
`llm_output["openai_api_response"]["usage"]`. -/
structure LLMOutput where
  token_usage : Option TokenUsage
  usage : Option TokenUsage
  model : Option String
  model_name : Option String
  openai_usage : Option TokenUsage
deriving Repr, DecidableEq

/-- The callback `response` object (`LLMResult`). -/
structure LLMResult where
  llm_output : Option LLMOutput
  generations : List (List Generation)
deriving Repr, DecidableEq

/-- Python `a or b` over optional dict lookups. -/
def pyOr {α : Type} (a b : Option α) : Option α :=
  match a with
  | some x => some x
  | none => b

/-- `text[:200] + "…"` (the preview truncation). -/
def preview200 (s : String) : String := String.mk (s.data.take 200) ++ "…"

/-- One in-flight/finished invocation record (the per-call dict; the raw
audit metadata blob is not modelled). -/
structure CallRec where
  kind : String
  run_id : String
  parent_run_id : Option String
  start_time : ℚ
  model : Option String
  prompts : List String
  prompt_preview : String
  output_preview : Option String
  prompt_tokens : ℕ
  completion_tokens : ℕ
  total_tokens : ℕ
  cost_usd : ℚ
  request_id : Option String
  end_time : Option ℚ
  latency_ms : Option ℤ
  error : Option String
deriving Repr, DecidableEq

/-- The mutable state of `CostTracingHandler`: the in-flight map `calls`
(insertion-ordered, unique keys) and the `finished` sequence. -/
structure TracerState where
  calls : List (String × CallRec)
  finished : List CallRec
deriving Repr, DecidableEq

/-- The provisional record stored by `_start_common`. -/
def startRecord (kind : String) (prompts : List String) (run_id : String)
    (parent_run_id : Option String) (t0 : ℚ) : CallRec :=
  { kind := kind
  , run_id := run_id
  , parent_run_id := parent_run_id
  , start_time := t0
  , model := none
  , prompts := prompts
  , prompt_preview :=
      match prompts with
      | [] => ""
      | p :: _ => preview200 p
  , output_preview := none
  , prompt_tokens := 0
  , completion_tokens := 0
  , total_tokens := 0
  , cost_usd := 0
  , request_id := none
  , end_time := none
  , latency_ms := none
  , error := none }

/-- `_start_common`: store the provisional record under `run_id`
(overwriting any previous in-flight record with the same id). -/
def start_common (kind : String) (prompts : List String) (run_id : String)
    (parent_run_id : Option String) (t0 : ℚ) (s : TracerState) : TracerState :=
  { s with calls :=
      pyDictInsert s.calls run_id (startRecord kind prompts run_id parent_run_id t0) }

/-- `self.calls.pop(run_id, None)`: the popped record (if any) and the state
with that entry removed. -/
def popCall (s : TracerState) (run_id : String) : Option CallRec × TracerState :=
  match s.calls.find? (fun p => p.1 = run_id) with
  | some p => (some p.2, { s with calls := s.calls.eraseP (fun q => q.1 = run_id) })
  | none => (none, s)

/-- The record finalization of `on_llm_error`: add end time, latency and the
error message to the popped record, leaving every other field unchanged. -/
def errorFinalize (err : String) (t : ℚ) (call : CallRec) : CallRec :=
  { call with
      end_time := some t
    , latency_ms := some (pyInt ((t - call.start_time) * 1000))
    , error := some err }

/-- `on_llm_error(error, run_id)`: pop the in-flight record; if present,
finalize it with the error and append to `finished`; else do nothing. -/
def on_llm_error (err : String) (run_id : String) (t : ℚ) (s : TracerState) :
    TracerState :=
  match popCall s run_id with
  | (some call, s1) =>
      { s1 with finished := s1.finished ++ [errorFinalize err t call] }
  | (none, s1) => s1

/-- `" ".join(...)`. -/
def joinSpace (l : List String) : String := String.intercalate " " l

/-- The metadata/usage extraction and record finalization of `_end_common`
(source lines 165–262), with `tk` standing for the `_count_tokens`
tiktoken-based estimator. -/
def finalizeEnd (tk : String → String → ℕ) (response : LLMResult)
    (call : CallRec) (t1 : ℚ) : CallRec :=
  let llm_output := response.llm_output
  let usage0 : Option TokenUsage :=
    pyOr (llm_output.bind (·.token_usage)) (llm_output.bind (·.usage))
  let gen0 : Option Generation :=
    match response.generations with
    | (g :: _) :: _ => some g
    | _ => none
  let msg : Option GenMsg := gen0.bind (·.message)
  let output_preview : Option String := msg.map (fun mg => preview200 mg.content)
  let rm : Option RespMeta := msg.bind (·.response_metadata)
  let model1 : Option String :=
    match msg with
    | none => none
    | some _ =>
        pyOr (llm_output.bind (·.model))
          (pyOr (llm_output.bind (·.model_name))
            (pyOr (rm.bind (·.model)) (rm.bind (·.model_name))))
  let usage1 : Option TokenUsage :=
    match msg with
    | none => usage0
    | some _ => pyOr usage0 (pyOr (rm.bind (·.token_usage)) (rm.bind (·.usage)))
  let usage2 : Option TokenUsage :=
    match gen0 with
    | none => usage1
    | some g =>
        pyOr usage1
          (pyOr (g.generation_info.bind (·.token_usage))
            (g.generation_info.bind (·.usage)))
  let usage3 : Option TokenUsage :=
    match usage2 with
    | some u => some u
    | none => llm_output.bind (·.openai_usage)
  let prompt_toks0 : ℕ := (usage3.bind (·.prompt_tokens)).getD 0
  let comp_toks0 : ℕ := (usage3.bind (·.completion_tokens)).getD 0
  let total_toks0 : ℕ :=
    match usage3.bind (·.total_tokens) with
    | some n => if n = 0 then prompt_toks0 + comp_toks0 else n
    | none => prompt_toks0 + comp_toks0
  let useFallback : Bool := prompt_toks0 + comp_toks0 = 0
  let eff_model : String := model1.getD "gpt-4o-mini"
  let fb_prompt : ℕ := tk eff_model (joinSpace call.prompts)
  let fb_comp : ℕ := tk eff_model
    (match msg with
     | some mg => mg.content
     | none => "")
  let prompt_toks1 := if useFallback then fb_prompt else prompt_toks0
  let comp_toks1 := if useFallback then fb_comp else comp_toks0
  let total_toks1 := if useFallback then fb_prompt + fb_comp else total_toks0
  let model2 : Option String := llm_output.bind (·.model_name)
  let model3 : Option String :=
    match msg with
    | none => model2
    | some _ => pyOr model2 (rm.bind (·.model_name))
  let request_id2 : Option String :=
    match msg with
    | none => none
    | some _ => pyOr (rm.bind (·.id)) (rm.bind (·.request_id))
  let reparse : Bool := usage3.isNone && (rm.bind (·.token_usage)).isSome
  let prompt_toks2 :=
    if reparse then ((rm.bind (·.token_usage)).bind (·.prompt_tokens)).getD 0
    else prompt_toks1
  let comp_toks2 :=
    if reparse then ((rm.bind (·.token_usage)).bind (·.completion_tokens)).getD 0
    else comp_toks1
  let total_toks2 :=
    if reparse then
      match (rm.bind (·.token_usage)).bind (·.total_tokens) with
      | some n => if n = 0 then prompt_toks2 + comp_toks2 else n
      | none => prompt_toks2 + comp_toks2
    else total_toks1
  let model_eff : String := model3.getD "unknown"
  let cost : ℚ := estimate_cost_usd model_eff prompt_toks2 comp_toks2
  { call with
      model := some model_eff
    , output_preview := output_preview
    , prompt_tokens := prompt_toks2
    , completion_tokens := comp_toks2
    , total_tokens := total_toks2
    , cost_usd := pyRound8 cost
    , request_id := request_id2
    , end_time := some t1
    , latency_ms := some (pyInt ((t1 - call.start_time) * 1000)) }

/-- `_end_common(response, run_id)`: pop the in-flight record; if present,
finalize and append to `finished`; an unknown `run_id` is a no-op. -/
def end_common (tk : String → String → ℕ) (response : LLMResult)
    (run_id : String) (t1 : ℚ) (s : TracerState) : TracerState :=
  match popCall s run_id with
  | (some call, s1) =>
      { s1 with finished := s1.finished ++ [finalizeEnd tk response call t1] }
  | (none, s1) => s1

/-- Aggregate prompt-token total over the finished sequence (`run`). -/
def total_prompt (l : List CallRec) : ℕ := (l.map (·.prompt_tokens)).sum

/-- Aggregate completion-token total over the finished sequence (`run`). -/
def total_completion (l : List CallRec) : ℕ := (l.map (·.completion_tokens)).sum

/-- Aggregate token total over the finished sequence (`run`). -/
def total_tokens_agg (l : List CallRec) : ℕ := (l.map (·.total_tokens)).sum

/-- Aggregate cost over the finished sequence (`run`, before final rounding). -/
def total_cost (l : List CallRec) : ℚ := (l.map (·.cost_usd)).sum

/-- Every in-flight record still carries the zero token/cost fields set at
start. -/
def ZeroInflight (s : TracerState) : Prop :=
  ∀ p ∈ s.calls, p.2.prompt_tokens = 0 ∧ p.2.completion_tokens = 0
    ∧ p.2.total_tokens = 0 ∧ p.2.cost_usd = 0

/-! ## Helper lemmas and claim theorems -/

theorem boundCheck_error (f : FieldSpec) (q : ℚ) (v : Value) (e : PydError)
    (h : boundCheck f q v = .error e) :
    e.loc = [f.name] ∧ isMissingErr e = false := by
  unfold boundCheck at h
  rcases hg : f.geq with _ | g <;> rcases hl : f.leq with _ | l <;>
    simp only [hg, hl] at h <;> repeat' split at h
  all_goals first
    | (injection h with h; subst h; exact ⟨rfl, rfl⟩)
    | simp at h

theorem parseField_error (f : FieldSpec) (v : Value) (e : PydError)
    (h : parseField f v = .error e) :
    e.loc = [f.name] ∧ isMissingErr e = false := by
  unfold parseField at h
  rcases hft : f.ftype <;> rcases v <;> simp only [hft] at h <;>
    first
      | (injection h with h; subst h; exact ⟨rfl, rfl⟩)
      | exact boundCheck_error _ _ _ _ h
      | simp at h

theorem endsWithStr_append (w s : String) : endsWithStr (w ++ s) s = true := by
  unfold endsWithStr
  rw [String.data_append, List.isSuffixOf_iff_suffix]
  exact List.suffix_append _ _

theorem modelValidate_ok_mname (m : SchemaModel) (d : List (String × Value))
    (inst : ModelInst) (h : modelValidate m d = .ok inst) : inst.mname = m.mname := by
  unfold modelValidate at h
  split at h
  · injection h with h; subst h; rfl
  · simp at h

theorem validate_ok_mname (cn : String) (m : SchemaModel) (p : Payload) (w : String)
    (v : ModelInst) (h : validate_with_model cn (some m) p w = .ok (some v)) :
    v.mname = m.mname := by
  unfold validate_with_model at h
  rcases p with _ | d | i | l | tag <;> simp only at h
  · rcases hmv : modelValidate m [] with es | inst
    · rw [hmv] at h; simp at h
    · rw [hmv] at h; simp only at h
      have h2 : inst = v := by injection h with h3; injection h3
      subst h2
      exact modelValidate_ok_mname _ _ _ hmv
  · rcases hmv : modelValidate m d with es | inst
    · rw [hmv] at h; simp at h
    · rw [hmv] at h; simp only at h
      have h2 : inst = v := by injection h with h3; injection h3
      subst h2
      exact modelValidate_ok_mname _ _ _ hmv
  · split at h
    · have h2 : i = v := by injection h with h3; injection h3
      subst h2
      assumption
    · simp at h
  · simp at h
  · simp at h

/-- C1: `_normalize_pydantic_errors` classifies a field-level failure as `<where>.missing` exactly when the violation is an absence-of-required-value condition (violation type `"missing"`, a type ending `".missing"`, or a message starting `"field required"`), and as `<where>.validation` otherwise; for a schema with a required field `F` and no default, omitting `F` yields an item with code `<where>.missing` (a code ending `".missing"`) and pointer `/F`, while supplying `F` with an ill-typed or out-of-range value yields `<where>.validation` (never `.missing`) at pointer `/F`. -/
theorem c1_missing_classification
    (w : String) (e : PydError) (m : SchemaModel) (cn : String)
    (f : FieldSpec) (hf : f ∈ m.fields) :
    ((isMissingErr e = true → (normalizeOne w e).code = w ++ ".missing")
      ∧ (isMissingErr e = false → (normalizeOne w e).code = w ++ ".validation")
      ∧ w ++ ".missing" ≠ w ++ ".validation")
    ∧ (∀ d : List (String × Value), f.fdefault = none → lookupKey d f.name = none →
        validate_with_model cn (some m) (.pdict d) w
          = .fail (normalize_pydantic_errors w (modelErrors m d))
        ∧ ∃ it ∈ normalize_pydantic_errors w (modelErrors m d),
            endsWithStr it.code ".missing" = true
            ∧ it.code = w ++ ".missing" ∧ it.pointer = "/" ++ f.name)
    ∧ (∀ (d : List (String × Value)) (v : Value) (e2 : PydError),
        lookupKey d f.name = some v → parseField f v = .error e2 →
        isMissingErr e2 = false
        ∧ validate_with_model cn (some m) (.pdict d) w
            = .fail (normalize_pydantic_errors w (modelErrors m d))
        ∧ ∃ it ∈ normalize_pydantic_errors w (modelErrors m d),
            it.code = w ++ ".validation" ∧ it.pointer = "/" ++ f.name) := by
  refine ⟨⟨?_, ?_, ?_⟩, ?_, ?_⟩
  · intro h; simp [normalizeOne, h]
  · intro h; simp [normalizeOne, h]
  · intro h
    have := congrArg String.length h
    simp only [String.length_append] at this
    have h8 : ".missing".length = 8 := rfl
    have h11 : ".validation".length = 11 := rfl
    omega
  · intro d hdef hlook
    have herr : fieldError d f = some ⟨"missing", [f.name], "Field required", none⟩ := by
      simp only [fieldError, fieldResult, hlook, hdef]
    have hmem : (⟨"missing", [f.name], "Field required", none⟩ : PydError) ∈ modelErrors m d :=
      List.mem_filterMap.mpr ⟨f, hf, herr⟩
    have hne : modelErrors m d ≠ [] := by
      intro hnil; rw [hnil] at hmem; exact absurd hmem (List.not_mem_nil _)
    constructor
    · unfold validate_with_model modelValidate
      simp only [if_neg hne]
    · refine ⟨normalizeOne w ⟨"missing", [f.name], "Field required", none⟩,
        List.mem_map.mpr ⟨_, hmem, rfl⟩, ?_, rfl, rfl⟩
      have hc : (normalizeOne w ⟨"missing", [f.name], "Field required", none⟩).code
          = w ++ ".missing" := rfl
      rw [hc]
      exact endsWithStr_append w ".missing"
  · intro d v e2 hlook herr2
    obtain ⟨hloc, hnm⟩ := parseField_error f v e2 herr2
    have herr : fieldError d f = some e2 := by
      simp only [fieldError, fieldResult, hlook, herr2]
    have hmem : e2 ∈ modelErrors m d := List.mem_filterMap.mpr ⟨f, hf, herr⟩
    have hne : modelErrors m d ≠ [] := by
      intro hnil; rw [hnil] at hmem; exact absurd hmem (List.not_mem_nil _)
    refine ⟨hnm, ?_, ?_⟩
    · unfold validate_with_model modelValidate
      simp only [if_neg hne]
    · refine ⟨normalizeOne w e2, List.mem_map.mpr ⟨_, hmem, rfl⟩, ?_, ?_⟩
      · simp [normalizeOne, hnm]
      · simp only [normalizeOne, hloc]
        rfl

theorem c1_witness :
    ((⟨"f", FieldType.fstr, none, none, none⟩ : FieldSpec) ∈ reqFieldModel.fields)
    ∧ (validate_with_model "A" (some reqFieldModel) (.pdict []) "config"
        = .fail (normalize_pydantic_errors "config" (modelErrors reqFieldModel []))
      ∧ ∃ it ∈ normalize_pydantic_errors "config" (modelErrors reqFieldModel []),
          endsWithStr it.code ".missing" = true
          ∧ it.code = "config" ++ ".missing" ∧ it.pointer = "/" ++ "f") := by
  refine ⟨by decide, ?_⟩
  exact (c1_missing_classification "config" ⟨"missing", ["f"], "Field required", none⟩
    reqFieldModel "A" ⟨"f", .fstr, none, none, none⟩ (by decide)).2.1 [] rfl rfl

theorem validate_inst_ok (cn w : String) (m : SchemaModel) (i : ModelInst)
    (h : i.mname = m.mname) :
    validate_with_model cn (some m) (.pinst i) w = .ok (some i) := by
  unfold validate_with_model
  simp only
  rw [if_pos h]

/-- C2: for an agent whose declared schema model is `None`, any payload other than `None`, the empty dict and the empty list makes `_validate_with_model` raise and `_lookup_with_model` return `ok = false` with exactly one error item, whose code is `<where>.not_supported` and whose pointer is `/<where>`; the three empty payloads succeed with `ok = true` and a null validated object. -/
theorem c2_no_schema_not_supported (cn w : String) (p : Payload) :
    (pyEmptyish p = false →
      lookup_with_model cn none p w = .report false none [notSupportedItem cn w]
      ∧ validate_with_model cn none p w = .fail [notSupportedItem cn w])
    ∧ (pyEmptyish p = true →
      lookup_with_model cn none p w = .report true none []
      ∧ validate_with_model cn none p w = .ok none)
    ∧ (pyEmptyish p = true ↔ (p = .pnone ∨ p = .pdict [] ∨ p = .plist []))
    ∧ (notSupportedItem cn w).code = w ++ ".not_supported"
    ∧ (notSupportedItem cn w).pointer = "/" ++ w
    ∧ [notSupportedItem cn w].length = 1 := by
  refine ⟨?_, ?_, ?_, rfl, rfl, rfl⟩
  · intro h
    unfold lookup_with_model validate_with_model
    rw [h]
    exact ⟨rfl, rfl⟩
  · intro h
    unfold lookup_with_model validate_with_model
    rw [h]
    exact ⟨rfl, rfl⟩
  · cases p <;> simp [pyEmptyish, List.isEmpty_iff]

/-- C3: validation is idempotent: a payload that is already an instance of the declared model is returned unchanged by `_validate_with_model`, and re-validating the successful output of any validate call returns that same output. -/
theorem c3_validate_idempotent (cn w : String) (m : SchemaModel) :
    (∀ i : ModelInst, i.mname = m.mname →
        validate_with_model cn (some m) (.pinst i) w = .ok (some i))
    ∧ (∀ (p : Payload) (v : ModelInst),
        validate_with_model cn (some m) p w = .ok (some v) →
        validate_with_model cn (some m) (.pinst v) w = .ok (some v)) :=
  ⟨fun i h => validate_inst_ok cn w m i h,
   fun p v h => validate_inst_ok cn w m v (validate_ok_mname cn m p w v h)⟩

/-- C4: a payload that is neither an instance of the declared model, nor a dict, nor `None` makes `_validate_with_model` raise `TypeError`; `_lookup_with_model` lets it propagate instead of converting it into a structured `ok = false` report, and it is distinct from the `ValueError` validation-failure channel. -/
theorem c4_type_mismatch (cn w : String) (m : SchemaModel) (p : Payload)
    (h1 : ∀ i, p = .pinst i → i.mname ≠ m.mname)
    (h2 : p ≠ .pnone) (h3 : ∀ d, p ≠ .pdict d) :
    validate_with_model cn (some m) p w = .typeError
    ∧ lookup_with_model cn (some m) p w = .typeErr
    ∧ ∀ es, validate_with_model cn (some m) p w ≠ .fail es := by
  have hv : validate_with_model cn (some m) p w = .typeError := by
    rcases p with _ | d | i | l | tag
    · exact absurd rfl h2
    · exact absurd rfl (h3 d)
    · unfold validate_with_model
      simp only
      rw [if_neg (h1 i rfl)]
    · rfl
    · rfl
  refine ⟨hv, ?_, ?_⟩
  · unfold lookup_with_model
    simp only
    rw [hv]
  · intro es hes
    rw [hv] at hes
    cases hes

theorem c4_witness :
    (∀ i, Payload.pother "not a model" = Payload.pinst i → i.mname ≠ tooledConfig.mname)
    ∧ Payload.pother "not a model" ≠ Payload.pnone
    ∧ (∀ d, Payload.pother "not a model" ≠ Payload.pdict d)
    ∧ validate_with_model "TooledAgent" (some tooledConfig) (.pother "not a model") "config"
        = .typeError
    ∧ lookup_with_model "TooledAgent" (some tooledConfig) (.pother "not a model") "config"
        = .typeErr := by
  have h1 : ∀ i, Payload.pother "not a model" = Payload.pinst i → i.mname ≠ tooledConfig.mname := by
    intro i h; cases h
  have h2 : Payload.pother "not a model" ≠ Payload.pnone := by intro h; cases h
  have h3 : ∀ d, Payload.pother "not a model" ≠ Payload.pdict d := by intro d h; cases h
  obtain ⟨a, b, _⟩ := c4_type_mismatch "TooledAgent" "config" tooledConfig (.pother "not a model") h1 h2 h3
  exact ⟨h1, h2, h3, a, b⟩

/-- C5: for the concrete `TooledConfig` schema, looking up the empty map succeeds with all defaults applied (`temperature = 0.0`, `model = "gpt-4o-mini"`), and looking up `{"temperature": 5.0}` fails with exactly one error whose code is `config.validation` (ending `.validation`) at pointer `/temperature`. -/
theorem c5_tooled_config_scenario :
    lookup_with_model "TooledAgent" (some tooledConfig) (.pdict []) "config"
      = .report true
          (some [("model", .vstr "gpt-4o-mini"), ("temperature", .vfloat 0),
                 ("max_tokens", .vint 256), ("lang", .vstr "es"),
                 ("system_prompt", .vstr "Eres un agente útil. Usa herramientas cuando sea necesario.")])
          []
    ∧ lookup_with_model "TooledAgent" (some tooledConfig)
        (.pdict [("temperature", .vfloat 5)]) "config"
      = .report false none
          [{ code := "config.validation", title := "Error de validación",
             detail := "Input should be less than or equal to the declared maximum",
             pointer := "/temperature",
             meta := some ⟨"less_than_equal", some ("le", 2)⟩ }]
    ∧ endsWithStr "config.validation" ".validation" = true :=
  ⟨by decide, by decide, by decide⟩

theorem injectValues_key_mem (pool : List Util) (fs : List DepField)
    (k : String) (u : Util)
    (h : (k, u) ∈ fs.filterMap
      (fun g => (pool.find? (fun o => matches_type o g.annot)).map (fun w => (g.name, w)))) :
    ∃ g ∈ fs, g.name = k := by
  obtain ⟨g, hg, heq⟩ := List.mem_filterMap.mp h
  refine ⟨g, hg, ?_⟩
  obtain ⟨w, _, heq2⟩ := Option.map_eq_some'.mp heq
  exact (Prod.mk.injEq _ _ _ _ ▸ heq2).1

theorem lookup_injectValues (pool : List Util) (fs : List DepField)
    (hnd : (fs.map DepField.name).Nodup) (f : DepField) (hf : f ∈ fs) :
    lookupUtil (fs.filterMap
        (fun g => (pool.find? (fun o => matches_type o g.annot)).map (fun w => (g.name, w))))
        f.name
      = pool.find? (fun o => matches_type o f.annot) := by
  induction fs with
  | nil => cases hf
  | cons g rest ih =>
      have hnd2 : (rest.map DepField.name).Nodup := (List.nodup_cons.mp hnd).2
      have hgnotin : g.name ∉ rest.map DepField.name := (List.nodup_cons.mp hnd).1
      rcases List.mem_cons.mp hf with hfg | hfr
      · subst hfg
        rcases hfind : pool.find? (fun o => matches_type o f.annot) with _ | u
        · simp only [List.filterMap_cons, hfind, Option.map_none']
          rw [lookupUtil, List.find?_eq_none.mpr]
          · rfl
          · intro p hp hkey
            simp only [decide_eq_true_eq] at hkey
            obtain ⟨g2, hg2, hg2n⟩ := injectValues_key_mem pool rest p.1 p.2
              (by simpa using hp)
            apply hgnotin
            have hgf : g2.name = f.name := hg2n.trans hkey
            rw [← hgf]
            exact List.mem_map.mpr ⟨g2, hg2, rfl⟩
        · simp only [List.filterMap_cons, hfind, Option.map_some']
          rw [lookupUtil]
          simp [List.find?_cons]
      · have hne : f.name ≠ g.name := by
          intro hEq
          apply hgnotin
          rw [← hEq]
          exact List.mem_map.mpr ⟨f, hfr, rfl⟩
        rcases hfind : pool.find? (fun o => matches_type o g.annot) with _ | u
        · simp only [List.filterMap_cons, hfind, Option.map_none']
          exact ih hnd2 hfr
        · simp only [List.filterMap_cons, hfind, Option.map_some']
          rw [lookupUtil, List.find?_cons_of_neg]
          · exact ih hnd2 hfr
          · simp only [decide_eq_true_eq]
            exact fun hEq => hne hEq.symm

theorem matches_type_eq_spec (obj : Util) (t : TypeExpr) :
    matches_type obj t = matchesTypeSpec obj t := by
  have core : ∀ T : TypeExpr,
      (match isInstanceCheck obj T with
        | some true => true
        | _ => if typeName T = "RAGExpander" then obj.hasExpand else false)
      = (if isInstanceCheck obj T == some true then true
         else if typeName T = "RAGExpander" then obj.hasExpand else false) := by
    intro T
    rcases h : isInstanceCheck obj T with _ | b
    · simp [h]
    · cases b <;> simp [h]
  cases t <;> unfold matches_type matchesTypeSpec <;> first | rfl | exact core _

/-- C6: `Context.inject` returns `None` when no dependency schema is declared; otherwise each declared slot gets the first pool utility (registration order) accepted by `_matches_type`, which coincides with the spec's rule — instance check on the optional-unwrapped expected type, with the `RAGExpander` callable-`expand` duck-type fallback used only when the instance check fails; a required slot with no match is left unset and construction fails through pydantic's `missing` validation error. -/
theorem c6_dependency_injection (pool : List Util) (m : DepsModel)
    (hnd : (m.dfields.map DepField.name).Nodup) :
    inject pool none = none
    ∧ (∀ f ∈ m.dfields,
        lookupUtil (injectValues pool m) f.name
          = pool.find? (fun o => matches_type o f.annot))
    ∧ (∀ (obj : Util) (t : TypeExpr), matches_type obj t = matchesTypeSpec obj t)
    ∧ (∀ f ∈ m.dfields, f.hasDefault = false →
        pool.find? (fun o => matches_type o f.annot) = none →
        ∃ es, inject pool (some m) = some (.error es)
          ∧ ∃ e ∈ es, isMissingErr e = true ∧ e.loc = [f.name]) := by
  refine ⟨rfl, ?_, matches_type_eq_spec, ?_⟩
  · intro f hf
    exact lookup_injectValues pool m.dfields hnd f hf
  · intro f hf hreq hnone
    have hlk : lookupUtil (injectValues pool m) f.name = none := by
      rw [injectValues, lookup_injectValues pool m.dfields hnd f hf, hnone]
    have hres : depFieldResult (injectValues pool m) f
        = .error ⟨"missing", [f.name], "Field required", none⟩ := by
      rw [depFieldResult, hlk, hreq]
      simp
    have hmem : (⟨"missing", [f.name], "Field required", none⟩ : PydError)
        ∈ depErrors (injectValues pool m) m := by
      apply List.mem_filterMap.mpr
      exact ⟨f, hf, by rw [hres]⟩
    have hne : depErrors (injectValues pool m) m ≠ [] := by
      intro hnil
      rw [hnil] at hmem
      exact absurd hmem (List.not_mem_nil _)
    refine ⟨depErrors (injectValues pool m) m, ?_, ?_⟩
    · rw [inject, depConstruct, if_neg hne]
    · exact ⟨_, hmem, rfl, rfl⟩

theorem c6_witness :
    ((reqDeps.dfields.map DepField.name).Nodup)
    ∧ inject ([] : List Util) none = none
    ∧ lookupUtil (injectValues [] reqDeps) "rag"
        = List.find? (fun o => matches_type o (.cls "RAGExpander")) []
    ∧ (∃ es, inject ([] : List Util) (some reqDeps) = some (.error es)
        ∧ ∃ e ∈ es, isMissingErr e = true ∧ e.loc = ["rag"]) := by
  have h := c6_dependency_injection [] reqDeps (by decide)
  refine ⟨by decide, h.1, ?_, ?_⟩
  · exact h.2.1 ⟨"rag", .cls "RAGExpander", false⟩ (by simp [reqDeps])
  · exact h.2.2.2 ⟨"rag", .cls "RAGExpander", false⟩ (by simp [reqDeps]) rfl rfl

theorem anyKey_eq_isSome {α : Type} (d : List (String × α)) (k : String) :
    d.any (fun p => p.1 = k) = (dictGet d k).isSome := by
  induction d with
  | nil => rfl
  | cons q d ih =>
      by_cases hq : q.1 = k
      · simp [dictGet, List.find?_cons, hq]
      · simp only [List.any_cons, dictGet, List.find?_cons, hq, decide_eq_true_eq,
          if_neg hq, Bool.false_or]
        simpa [dictGet] using ih

theorem dictGet_append_single {α : Type} (d : List (String × α)) (k n : String) (v : α) :
    dictGet (d ++ [(k, v)]) n
      = match dictGet d n with
        | some u => some u
        | none => if k = n then some v else none := by
  rcases h : d.find? (fun p => p.1 = n) with _ | q
  · by_cases hk : k = n <;>
      simp [dictGet, List.find?_append, h, List.find?_cons, hk]
  · simp [dictGet, List.find?_append, h]

theorem dictGet_overwrite {α : Type} (d : List (String × α)) (k n : String) (v : α) :
    dictGet (d.map (fun p => if p.1 = k then (k, v) else p)) n
      = if k = n then (dictGet d k).map (fun _ => v) else dictGet d n := by
  induction d with
  | nil => by_cases hk : k = n <;> simp [dictGet, hk]
  | cons q d ih =>
      simp only [dictGet] at ih ⊢
      by_cases hq : q.1 = k <;> by_cases hk : k = n <;> by_cases hqn : q.1 = n <;>
        simp_all [List.find?_cons]

theorem dictGet_pyDictInsert {α : Type} (d : List (String × α)) (k n : String) (v : α) :
    dictGet (pyDictInsert d k v) n = if k = n then some v else dictGet d n := by
  rw [pyDictInsert]
  by_cases hany : d.any (fun p => p.1 = k)
  · rw [if_pos hany, dictGet_overwrite]
    by_cases hk : k = n
    · rw [if_pos hk, if_pos hk]
      rw [anyKey_eq_isSome] at hany
      rcases h : dictGet d k with _ | u
      · rw [h] at hany
        cases hany
      · rfl
    · rw [if_neg hk, if_neg hk]
  · rw [if_neg hany, dictGet_append_single]
    rw [anyKey_eq_isSome] at hany
    by_cases hk : k = n
    · subst hk
      rcases h : dictGet d k with _ | u
      · simp
      · rw [h] at hany
        simp at hany
    · rcases h : dictGet d n with _ | u <;> simp [hk, h]

theorem dictGet_fold_left_tools (ts : List BTool) (d0 : List (String × BTool)) (n : String) :
    dictGet (ts.foldl (fun d t => pyDictInsert d t.tname t) d0) n
      = match lastByName ts n with
        | some u => some u
        | none => dictGet d0 n := by
  induction ts generalizing d0 with
  | nil => rfl
  | cons t ts ih =>
      rw [List.foldl_cons, ih, lastByName]
      rcases h : lastByName ts n with _ | u
      · rw [dictGet_pyDictInsert]
        by_cases ht : t.tname = n <;> simp [ht]
      · rfl

theorem dictGet_fold_right_tools (rs : List BTool) (d0 : List (String × BTool)) (n : String) :
    dictGet (rs.foldl
        (fun d t => if d.any (fun p => p.1 = t.tname) then d else d ++ [(t.tname, t)]) d0) n
      = match dictGet d0 n with
        | some u => some u
        | none => firstByName rs n := by
  induction rs generalizing d0 with
  | nil => rcases h : dictGet d0 n with _ | u <;> simp [firstByName, h]
  | cons r rs ih =>
      rw [List.foldl_cons, ih]
      by_cases hany : d0.any (fun p => p.1 = r.tname)
      · rw [if_pos hany]
        rcases h : dictGet d0 n with _ | u
        · by_cases hr : r.tname = n
          · exfalso
            rw [anyKey_eq_isSome] at hany
            rw [hr, h] at hany
            cases hany
          · have hstep : firstByName (r :: rs) n = firstByName rs n := by
              rw [firstByName, firstByName, List.find?_cons]
              simp [hr]
            rw [hstep]
        · rfl
      · rw [if_neg hany, dictGet_append_single]
        rcases h : dictGet d0 n with _ | u
        · by_cases hr : r.tname = n <;> simp [firstByName, List.find?_cons, hr]
        · rfl

theorem mergeDict_dictGet (l r : List BTool) (n : String) :
    dictGet (mergeDict l r) n = pyOr (lastByName l n) (firstByName r n) := by
  rw [mergeDict, dictGet_fold_right_tools, dictGet_fold_left_tools]
  rcases h : lastByName l n with _ | u
  · rfl
  · rfl

theorem pyDictInsert_keys (d : List (String × BTool)) (k : String) (v : BTool) :
    (pyDictInsert d k v).map Prod.fst
      = if d.any (fun p => p.1 = k) then d.map Prod.fst else d.map Prod.fst ++ [k] := by
  rw [pyDictInsert]
  by_cases hany : d.any (fun p => p.1 = k)
  · rw [if_pos hany, if_pos hany, List.map_map]
    apply List.map_congr_left
    intro p hp
    by_cases hp1 : p.1 = k <;> simp [hp1]
  · rw [if_neg hany, if_neg hany]
    simp

theorem mergeDict_invariant (l r : List BTool) :
    ((mergeDict l r).map Prod.fst).Nodup ∧ ∀ p ∈ mergeDict l r, p.2.tname = p.1 := by
  have step1 : ∀ (ts : List BTool) (d0 : List (String × BTool)),
      (d0.map Prod.fst).Nodup → (∀ p ∈ d0, p.2.tname = p.1) →
      ((ts.foldl (fun d t => pyDictInsert d t.tname t) d0).map Prod.fst).Nodup
        ∧ ∀ p ∈ ts.foldl (fun d t => pyDictInsert d t.tname t) d0, p.2.tname = p.1 := by
    intro ts
    induction ts with
    | nil => exact fun d0 h1 h2 => ⟨h1, h2⟩
    | cons t ts ih =>
        intro d0 h1 h2
        rw [List.foldl_cons]
        apply ih
        · rw [pyDictInsert_keys]
          by_cases hany : d0.any (fun p => p.1 = t.tname)
          · rw [if_pos hany]
            exact h1
          · rw [if_neg hany]
            apply List.Nodup.append h1 (List.nodup_singleton _)
            intro a ha hb
            have hat : a = t.tname := by simpa using hb
            subst hat
            apply hany
            rw [List.any_eq_true]
            obtain ⟨p, hp, hpk⟩ := List.mem_map.mp ha
            exact ⟨p, hp, by simpa using hpk⟩
        · intro p hp
          rw [pyDictInsert] at hp
          split at hp
          · obtain ⟨q, hq, hqe⟩ := List.mem_map.mp hp
            by_cases hq1 : q.1 = t.tname
            · rw [if_pos hq1] at hqe
              rw [← hqe]
            · rw [if_neg hq1] at hqe
              rw [← hqe]
              exact h2 q hq
          · rcases List.mem_append.mp hp with hin | hin
            · exact h2 p hin
            · have hpt : p = (t.tname, t) := by simpa using hin
              rw [hpt]
  have step2 : ∀ (rs : List BTool) (d0 : List (String × BTool)),
      (d0.map Prod.fst).Nodup → (∀ p ∈ d0, p.2.tname = p.1) →
      ((rs.foldl (fun d t =>
          if d.any (fun p => p.1 = t.tname) then d else d ++ [(t.tname, t)]) d0).map
        Prod.fst).Nodup
        ∧ ∀ p ∈ rs.foldl (fun d t =>
            if d.any (fun p => p.1 = t.tname) then d else d ++ [(t.tname, t)]) d0,
          p.2.tname = p.1 := by
    intro rs
    induction rs with
    | nil => exact fun d0 h1 h2 => ⟨h1, h2⟩
    | cons t rs ih =>
        intro d0 h1 h2
        rw [List.foldl_cons]
        apply ih
        · by_cases hany : d0.any (fun p => p.1 = t.tname)
          · rw [if_pos hany]
            exact h1
          · rw [if_neg hany, List.map_append]
            apply List.Nodup.append h1 (List.nodup_singleton _)
            intro a ha hb
            have hat : a = t.tname := by simpa using hb
            subst hat
            apply hany
            rw [List.any_eq_true]
            obtain ⟨p, hp, hpk⟩ := List.mem_map.mp ha
            exact ⟨p, hp, by simpa using hpk⟩
        · intro p hp
          by_cases hany : d0.any (fun q => q.1 = t.tname)
          · rw [if_pos hany] at hp
            exact h2 p hp
          · rw [if_neg hany] at hp
            rcases List.mem_append.mp hp with hin | hin
            · exact h2 p hin
            · have hpt : p = (t.tname, t) := by simpa using hin
              rw [hpt]
  rw [mergeDict]
  obtain ⟨h1, h2⟩ := step1 l [] (by simp) (by simp)
  exact step2 r _ h1 h2

theorem dictGet_isSome_iff {α : Type} (d : List (String × α)) (n : String) :
    (dictGet d n).isSome = true ↔ n ∈ d.map Prod.fst := by
  rw [← anyKey_eq_isSome, List.any_eq_true]
  constructor
  · rintro ⟨p, hp, hpk⟩
    exact List.mem_map.mpr ⟨p, hp, by simpa using hpk⟩
  · intro h
    obtain ⟨p, hp, hpk⟩ := List.mem_map.mp h
    exact ⟨p, hp, by simpa using hpk⟩

theorem lastByName_isSome (ts : List BTool) (n : String) :
    (lastByName ts n).isSome = true ↔ n ∈ ts.map (fun t => t.tname) := by
  induction ts with
  | nil => simp [lastByName]
  | cons t ts ih =>
      rw [lastByName]
      rcases h : lastByName ts n with _ | u
      · rw [h] at ih
        by_cases ht : t.tname = n
        · simp [ht]
        · simp only [List.map_cons, List.mem_cons, if_neg ht]
          constructor
          · intro hfalse
            exact absurd hfalse (by simp)
          · rintro (hEq | hmem)
            · exact absurd hEq.symm ht
            · exact ih.mpr hmem
      · rw [h] at ih
        simp only [Option.isSome_some, true_iff] at ih
        simp [ih]

theorem firstByName_isSome (ts : List BTool) (n : String) :
    (firstByName ts n).isSome = true ↔ n ∈ ts.map (fun t => t.tname) := by
  rw [firstByName, List.find?_isSome]
  constructor
  · rintro ⟨t, ht, htk⟩
    exact List.mem_map.mpr ⟨t, ht, by simpa using htk⟩
  · intro h
    obtain ⟨t, ht, htk⟩ := List.mem_map.mp h
    exact ⟨t, ht, by simpa using htk⟩

theorem dictGet_of_mem {α : Type} (d : List (String × α))
    (hnd : (d.map Prod.fst).Nodup) (p : String × α) (hp : p ∈ d) :
    dictGet d p.1 = some p.2 := by
  induction d with
  | nil => cases hp
  | cons q d ih =>
      rcases List.mem_cons.mp hp with h | h
      · rw [← h]
        simp [dictGet, List.find?_cons]
      · have hq1 : ¬ q.1 = p.1 := by
          intro hEq
          apply (List.nodup_cons.mp hnd).1
          rw [hEq]
          exact List.mem_map.mpr ⟨p, h, rfl⟩
        rw [dictGet, List.find?_cons]
        have hdec : (decide (q.1 = p.1)) = false := by simp [hq1]
        simp only [hdec]
        exact ih (List.nodup_cons.mp hnd).2 h

/-- C7 counterexample: with two dependency-supplied tools both named `"wikipedia"` and no explicit tools, `_merge_tools` keeps the *last* duplicate (dict-comprehension overwrite), so the claim's first-seen-wins rule is false on the code at this input. -/
theorem c7_counterexample :
    merge_tools [⟨"wikipedia", 1⟩, ⟨"wikipedia", 2⟩] [] = [⟨"wikipedia", 2⟩]
    ∧ merge_tools [⟨"wikipedia", 1⟩, ⟨"wikipedia", 2⟩] [] ≠ [⟨"wikipedia", 1⟩] := by
  constructor
  · decide
  · decide

/-- C7 amended: the merged collection has exactly one tool per distinct name, and a name is present iff it occurs among the dependency or explicit tools; each merged tool is the last dependency tool bearing its name when the name occurs among dependency tools (dict overwrite), else the first explicit tool with that name — so on a dependency/explicit collision the dependency-supplied instance is kept, and for a dependency tool and an explicit tool both named `"wikipedia"` the merge yields exactly the dependency instance. -/
theorem c7_merge_tools (left right : List BTool) :
    ((merge_tools left right).map (fun t => t.tname)).Nodup
    ∧ (∀ n, n ∈ (merge_tools left right).map (fun t => t.tname)
        ↔ (n ∈ left.map (fun t => t.tname) ∨ n ∈ right.map (fun t => t.tname)))
    ∧ (∀ t ∈ merge_tools left right,
        pyOr (lastByName left t.tname) (firstByName right t.tname) = some t)
    ∧ (∀ dep ext : BTool, dep.tname = ext.tname → merge_tools [dep] [ext] = [dep])
    ∧ merge_tools [⟨"wikipedia", 1⟩] [⟨"wikipedia", 2⟩] = [⟨"wikipedia", 1⟩] := by
  obtain ⟨hnd, hco⟩ := mergeDict_invariant left right
  have hnames : (merge_tools left right).map (fun t => t.tname)
      = (mergeDict left right).map Prod.fst := by
    rw [merge_tools, List.map_map]
    apply List.map_congr_left
    intro p hp
    exact hco p hp
  refine ⟨?_, ?_, ?_, ?_, ?_⟩
  · rw [hnames]
    exact hnd
  · intro n
    rw [hnames, ← dictGet_isSome_iff, mergeDict_dictGet]
    rcases hl : lastByName left n with _ | u
    · rw [pyOr]
      rw [firstByName_isSome]
      constructor
      · exact Or.inr
      · rintro (hmem | hmem)
        · exfalso
          have := (lastByName_isSome left n).mpr hmem
          rw [hl] at this
          cases this
        · exact hmem
    · rw [pyOr]
      constructor
      · intro _
        exact Or.inl ((lastByName_isSome left n).mp (by rw [hl]; rfl))
      · intro _
        rfl
  · intro t ht
    obtain ⟨p, hp, hpe⟩ := List.mem_map.mp ht
    have hkey : p.2.tname = p.1 := hco p hp
    have hdg := dictGet_of_mem (mergeDict left right) hnd p hp
    rw [← hpe, hkey, ← mergeDict_dictGet]
    exact hdg
  · intro dep ext hne
    rw [merge_tools, mergeDict]
    simp [pyDictInsert, List.any_cons, hne]
  · decide

theorem popCall_not_mem (s : TracerState) (rid : String)
    (h : rid ∉ s.calls.map Prod.fst) : popCall s rid = (none, s) := by
  rw [popCall]
  rw [List.find?_eq_none.mpr]
  intro p hp
  simp only [decide_eq_true_eq]
  intro hEq
  exact h (List.mem_map.mpr ⟨p, hp, hEq⟩)

theorem popCall_mem (s : TracerState) (rid : String)
    (h : rid ∈ s.calls.map Prod.fst) :
    ∃ r, s.calls.find? (fun p => p.1 = rid) = some (rid, r)
      ∧ popCall s rid
        = (some r, { s with calls := s.calls.eraseP (fun q => q.1 = rid) }) := by
  obtain ⟨p, hp, hpk⟩ := List.mem_map.mp h
  have hsome : (s.calls.find? (fun p => p.1 = rid)).isSome = true := by
    rw [List.find?_isSome]
    exact ⟨p, hp, by simpa using hpk⟩
  rcases hf : s.calls.find? (fun p => p.1 = rid) with _ | q
  · rw [hf] at hsome
    cases hsome
  · have hq1 : q.1 = rid := by
      have := List.find?_some hf
      simpa using this
    refine ⟨q.2, ?_, ?_⟩
    · rw [hf, ← hq1]
    · rw [popCall, hf]

theorem eraseP_key_not_mem (d : List (String × CallRec)) (rid : String)
    (hnd : (d.map Prod.fst).Nodup) :
    rid ∉ (d.eraseP (fun q => q.1 = rid)).map Prod.fst := by
  induction d with
  | nil => simp
  | cons q d ih =>
      by_cases hq : q.1 = rid
      · rw [List.eraseP_cons_of_pos (by simpa using hq)]
        rw [← hq]
        exact (List.nodup_cons.mp hnd).1
      · rw [List.eraseP_cons_of_neg (by simpa using hq)]
        simp only [List.map_cons, List.mem_cons]
        rintro (hEq | hmem)
        · exact hq hEq.symm
        · exact ih (List.nodup_cons.mp hnd).2 hmem

/-- C8: an end or error event for a run_id absent from the in-flight map leaves the tracer state completely unchanged; for a present run_id (keys unique) the popped record is appended to `finished` exactly once and the run_id leaves the in-flight map, so a repeated end event adds nothing further (at-most-once completion per run_id), and a start event never changes the finished sequence. -/
theorem c8_inflight_invariant (tk : String → String → ℕ) (resp resp2 : LLMResult)
    (err rid kind : String) (prompts : List String) (parent : Option String)
    (t t2 t0 : ℚ) (s : TracerState) :
    (rid ∉ s.calls.map Prod.fst →
      end_common tk resp rid t s = s ∧ on_llm_error err rid t s = s)
    ∧ ((s.calls.map Prod.fst).Nodup → rid ∈ s.calls.map Prod.fst →
        (∃ r, s.calls.find? (fun p => p.1 = rid) = some (rid, r)
          ∧ (end_common tk resp rid t s).finished
              = s.finished ++ [finalizeEnd tk resp r t]
          ∧ (on_llm_error err rid t s).finished
              = s.finished ++ [errorFinalize err t r])
        ∧ rid ∉ (end_common tk resp rid t s).calls.map Prod.fst
        ∧ (end_common tk resp2 rid t2 (end_common tk resp rid t s)).finished.length
            = s.finished.length + 1)
    ∧ (start_common kind prompts rid parent t0 s).finished = s.finished := by
  refine ⟨?_, ?_, rfl⟩
  · intro h
    have hpop := popCall_not_mem s rid h
    constructor
    · rw [end_common, hpop]
    · rw [on_llm_error, hpop]
  · intro hnd hmem
    obtain ⟨r, hfind, hpop⟩ := popCall_mem s rid hmem
    have hend : end_common tk resp rid t s
        = { calls := s.calls.eraseP (fun q => q.1 = rid)
          , finished := s.finished ++ [finalizeEnd tk resp r t] } := by
      rw [end_common, hpop]
    have hkeys : rid ∉ (end_common tk resp rid t s).calls.map Prod.fst := by
      rw [hend]
      exact eraseP_key_not_mem s.calls rid hnd
    refine ⟨⟨r, hfind, by rw [hend], by rw [on_llm_error, hpop]⟩, hkeys, ?_⟩
    have hpop2 := popCall_not_mem (end_common tk resp rid t s) rid hkeys
    rw [end_common, hpop2, hend]
    simp

theorem keep_acc_of_not_longer (l : List (String × (ℚ × ℚ))) (p : String × (ℚ × ℚ))
    (h : ∀ q ∈ l, ¬ (p.1.length < q.1.length)) :
    l.foldl (fun acc q => match acc with
      | none => some q
      | some q0 => if q0.1.length < q.1.length then some q else some q0) (some p)
      = some p := by
  induction l with
  | nil => rfl
  | cons q l ih =>
      rw [List.foldl_cons]
      have hq := h q (List.mem_cons_self q l)
      simp only [if_neg hq]
      exact ih (fun q2 hq2 => h q2 (List.mem_cons_of_mem q hq2))

theorem find_first_eq_longest (L : List (String × (ℚ × ℚ))) (m : String)
    (hP : L.Pairwise (fun a b => a.1.data.isPrefixOf b.1.data = true → a.1 = b.1)) :
    L.find? (fun p => startsWithStr m p.1)
      = (L.filter (fun p => startsWithStr m p.1)).foldl
          (fun acc q => match acc with
            | none => some q
            | some q0 => if q0.1.length < q.1.length then some q else some q0) none := by
  induction L with
  | nil => rfl
  | cons p L ih =>
      obtain ⟨hhead, htail⟩ := List.pairwise_cons.mp hP
      by_cases hsp : startsWithStr m p.1 = true
      · rw [List.find?_cons_of_pos _ (by simpa using hsp),
          List.filter_cons_of_pos (by simpa using hsp), List.foldl_cons]
        simp only
        rw [keep_acc_of_not_longer]
        intro q hq
        have hqL : q ∈ L := List.mem_of_mem_filter hq
        have hqm : startsWithStr m q.1 = true := by
          have := List.of_mem_filter hq
          simpa using this
        have hpm : p.1.data <+: m.data := List.isPrefixOf_iff_prefix.mp hsp
        have hqm2 : q.1.data <+: m.data := List.isPrefixOf_iff_prefix.mp hqm
        rcases List.prefix_or_prefix_of_prefix hpm hqm2 with hpq | hqp
        · have := hhead q hqL (List.isPrefixOf_iff_prefix.mpr hpq)
          rw [this]
          simp
        · have hle := List.IsPrefix.length_le hqp
          intro hlt
          have h1 : q.1.length ≤ p.1.length := hle
          omega
      · rw [List.find?_cons_of_neg _ (by simpa using hsp),
          List.filter_cons_of_neg (by simpa using hsp)]
        exact ih htail

theorem pricing_pairwise :
    PRICING_PER_1K.Pairwise (fun a b => a.1.data.isPrefixOf b.1.data = true → a.1 = b.1) := by
  decide

theorem match_pricing_eq_spec (m : String) : match_pricing m = match_pricing_spec m := by
  rw [match_pricing, match_pricing_spec]
  rcases hf : PRICING_PER_1K.find? (fun p => p.1 = m) with _ | p
  · simp only [hf]
    rw [find_first_eq_longest PRICING_PER_1K m pricing_pairwise]
  · simp only [hf]


theorem finalizeEnd_simple_usage (tk : String → String → ℕ) (p c : ℕ)
    (mdl : String) (call : CallRec) (t1 : ℚ) (hz : ¬ (p + c = 0)) :
    finalizeEnd tk ⟨some ⟨some ⟨some p, some c, none⟩, none, none, some mdl, none⟩, []⟩ call t1
      = { call with
            model := some mdl
          , output_preview := none
          , prompt_tokens := p
          , completion_tokens := c
          , total_tokens := p + c
          , cost_usd := pyRound8 (estimate_cost_usd mdl p c)
          , request_id := none
          , end_time := some t1
          , latency_ms := some (pyInt ((t1 - call.start_time) * 1000)) } := by
  rw [finalizeEnd]
  simp [pyOr, hz]

/-- C9: a start event followed by an end event whose response carries usage `{prompt_tokens := p, completion_tokens := c}` with `p + c > 0` appends a finished record with `total_tokens = p + c` and `cost_usd = round(p/1000 * input_price + c/1000 * output_price, 8)` for the reported model's price pair; the price lookup of `match_pricing` coincides with exact-match-then-longest-prefix over the static table, and defaults to `(0, 0)` (zero cost) for models matching no entry. -/
theorem c9_cost_accounting (tk : String → String → ℕ) (p c : ℕ)
    (mdl rid kind : String) (prompts : List String) (parent : Option String)
    (t0 t1 : ℚ) (s : TracerState)
    (hpc : 0 < p + c) :
    (∃ rec, (end_common tk
        ⟨some ⟨some ⟨some p, some c, none⟩, none, none, some mdl, none⟩, []⟩
        rid t1 (start_common kind prompts rid parent t0 s)).finished
          = s.finished ++ [rec]
      ∧ rec.prompt_tokens = p ∧ rec.completion_tokens = c
      ∧ rec.total_tokens = p + c
      ∧ rec.model = some mdl
      ∧ rec.cost_usd = pyRound8 ((p : ℚ) / 1000 * (match_pricing mdl).1
          + (c : ℚ) / 1000 * (match_pricing mdl).2))
    ∧ (∀ name : String, match_pricing name = match_pricing_spec name)
    ∧ (∀ name : String,
        PRICING_PER_1K.find? (fun q => q.1 = name) = none →
        PRICING_PER_1K.find? (fun q => startsWithStr name q.1) = none →
        match_pricing name = (0, 0)) := by
  refine ⟨?_, match_pricing_eq_spec, ?_⟩
  · set resp : LLMResult :=
      ⟨some ⟨some ⟨some p, some c, none⟩, none, none, some mdl, none⟩, []⟩ with hresp
    set s1 := start_common kind prompts rid parent t0 s with hs1
    set r0 := startRecord kind prompts rid parent t0 with hr0
    have hz : ¬ (p + c = 0) := by omega
    have hdg : dictGet s1.calls rid = some r0 := by
      rw [hs1, start_common]
      simp only
      rw [← hr0, dictGet_pyDictInsert]
      simp
    have hfind : s1.calls.find? (fun q => q.1 = rid) = some (rid, r0) := by
      rcases hf : s1.calls.find? (fun q => q.1 = rid) with _ | q
      · rw [dictGet, hf] at hdg
        cases hdg
      · have hq1 : q.1 = rid := by
          have := List.find?_some hf
          simpa using this
        have hq2 : q.2 = r0 := by
          rw [dictGet, hf] at hdg
          simpa using hdg
        have hq : q = (rid, r0) := by
          cases q
          simp_all
        rw [hf, hq]
    have hpop : popCall s1 rid
        = (some r0, { s1 with calls := s1.calls.eraseP (fun q => q.1 = rid) }) := by
      rw [popCall, hfind]
    refine ⟨finalizeEnd tk resp r0 t1, ?_, ?_, ?_, ?_, ?_, ?_⟩
    · rw [end_common, hpop]
      rfl
    · rw [hresp, finalizeEnd_simple_usage tk p c mdl r0 t1 hz]
    · rw [hresp, finalizeEnd_simple_usage tk p c mdl r0 t1 hz]
    · rw [hresp, finalizeEnd_simple_usage tk p c mdl r0 t1 hz]
    · rw [hresp, finalizeEnd_simple_usage tk p c mdl r0 t1 hz]
    · rw [hresp, finalizeEnd_simple_usage tk p c mdl r0 t1 hz]
      rw [estimate_cost_usd]
  · intro name h1 h2
    rw [match_pricing, h1, h2]

theorem mem_pyDictInsert {α : Type} (d : List (String × α)) (k : String) (v : α)
    (p : String × α) (hp : p ∈ pyDictInsert d k v) : p ∈ d ∨ p = (k, v) := by
  rw [pyDictInsert] at hp
  split at hp
  · obtain ⟨q, hq, hqe⟩ := List.mem_map.mp hp
    by_cases hq1 : q.1 = k
    · rw [if_pos hq1] at hqe
      exact Or.inr hqe.symm
    · rw [if_neg hq1] at hqe
      exact Or.inl (hqe ▸ hq)
  · rcases List.mem_append.mp hp with h | h
    · exact Or.inl h
    · exact Or.inr (by simpa using h)

/-- C10: `_start_common` stores a record whose token counts and cost are zero; `on_llm_error` adds only the end time, the latency and the error message, keeping every other field (tokens and cost included) unchanged; consequently, since every in-flight record carries zeros (an invariant preserved by start, end and error events), an errored invocation contributes exactly zero to every aggregate total over the finished sequence. -/
theorem c10_error_zero_contribution (err rid kind : String) (prompts : List String)
    (parent : Option String) (t t0 : ℚ) (s : TracerState) :
    ((startRecord kind prompts rid parent t0).prompt_tokens = 0
      ∧ (startRecord kind prompts rid parent t0).completion_tokens = 0
      ∧ (startRecord kind prompts rid parent t0).total_tokens = 0
      ∧ (startRecord kind prompts rid parent t0).cost_usd = 0)
    ∧ (∀ call : CallRec,
        (errorFinalize err t call).prompt_tokens = call.prompt_tokens
        ∧ (errorFinalize err t call).completion_tokens = call.completion_tokens
        ∧ (errorFinalize err t call).total_tokens = call.total_tokens
        ∧ (errorFinalize err t call).cost_usd = call.cost_usd
        ∧ (errorFinalize err t call).model = call.model
        ∧ (errorFinalize err t call).request_id = call.request_id
        ∧ (errorFinalize err t call).output_preview = call.output_preview
        ∧ (errorFinalize err t call).prompt_preview = call.prompt_preview
        ∧ (errorFinalize err t call).start_time = call.start_time
        ∧ (errorFinalize err t call).end_time = some t
        ∧ (errorFinalize err t call).latency_ms
            = some (pyInt ((t - call.start_time) * 1000))
        ∧ (errorFinalize err t call).error = some err)
    ∧ (ZeroInflight s →
        total_prompt (on_llm_error err rid t s).finished = total_prompt s.finished
        ∧ total_completion (on_llm_error err rid t s).finished
            = total_completion s.finished
        ∧ total_tokens_agg (on_llm_error err rid t s).finished
            = total_tokens_agg s.finished
        ∧ total_cost (on_llm_error err rid t s).finished = total_cost s.finished)
    ∧ (ZeroInflight s →
        ZeroInflight (start_common kind prompts rid parent t0 s)
        ∧ ZeroInflight (on_llm_error err rid t s)
        ∧ ∀ (tk : String → String → ℕ) (resp : LLMResult) (t1 : ℚ),
            ZeroInflight (end_common tk resp rid t1 s)) := by
  refine ⟨⟨rfl, rfl, rfl, rfl⟩,
    fun call => ⟨rfl, rfl, rfl, rfl, rfl, rfl, rfl, rfl, rfl, rfl, rfl, rfl⟩, ?_, ?_⟩
  · intro hz
    rcases hf : s.calls.find? (fun q => q.1 = rid) with _ | q
    · rw [on_llm_error, popCall, hf]
      exact ⟨rfl, rfl, rfl, rfl⟩
    · have hq := List.mem_of_find?_eq_some hf
      obtain ⟨hz1, hz2, hz3, hz4⟩ := hz q hq
      rw [on_llm_error, popCall, hf]
      simp only
      refine ⟨?_, ?_, ?_, ?_⟩
      · rw [total_prompt, total_prompt, List.map_append, List.sum_append]
        simp [errorFinalize, hz1]
      · rw [total_completion, total_completion, List.map_append, List.sum_append]
        simp [errorFinalize, hz2]
      · rw [total_tokens_agg, total_tokens_agg, List.map_append, List.sum_append]
        simp [errorFinalize, hz3]
      · rw [total_cost, total_cost, List.map_append, List.sum_append]
        simp [errorFinalize, hz4]
  · intro hz
    refine ⟨?_, ?_, ?_⟩
    · intro p hp
      rcases mem_pyDictInsert s.calls rid _ p hp with h | h
      · exact hz p h
      · rw [h]
        exact ⟨rfl, rfl, rfl, rfl⟩
    · intro p hp
      rw [on_llm_error] at hp
      rcases hf : s.calls.find? (fun q => q.1 = rid) with _ | q <;>
        rw [popCall, hf] at hp
      · exact hz p hp
      · simp only at hp
        exact hz p (List.Sublist.mem hp (List.eraseP_sublist _))
    · intro tk resp t1 p hp
      rw [end_common] at hp
      rcases hf : s.calls.find? (fun q => q.1 = rid) with _ | q <;>
        rw [popCall, hf] at hp
      · exact hz p hp
      · simp only at hp
        exact hz p (List.Sublist.mem hp (List.eraseP_sublist _))

theorem c2_witness :
    pyEmptyish (Payload.pdict [("x", Value.vint 1)]) = false
    ∧ lookup_with_model "EchoAgent" none (.pdict [("x", .vint 1)]) "config"
        = .report false none [notSupportedItem "EchoAgent" "config"]
    ∧ validate_with_model "EchoAgent" none (.pdict [("x", .vint 1)]) "config"
        = .fail [notSupportedItem "EchoAgent" "config"]
    ∧ lookup_with_model "EchoAgent" none Payload.pnone "config" = .report true none [] := by
  have h := c2_no_schema_not_supported "EchoAgent" "config" (.pdict [("x", .vint 1)])
  have h2 := c2_no_schema_not_supported "EchoAgent" "config" Payload.pnone
  exact ⟨by decide, (h.1 (by decide)).1, (h.1 (by decide)).2, (h2.2.1 (by decide)).1⟩

theorem c3_witness :
    validate_with_model "TooledAgent" (some tooledConfig) (.pdict []) "config"
      = .ok (some ⟨"TooledConfig",
          [("model", .vstr "gpt-4o-mini"), ("temperature", .vfloat 0),
           ("max_tokens", .vint 256), ("lang", .vstr "es"),
           ("system_prompt",
            .vstr "Eres un agente útil. Usa herramientas cuando sea necesario.")]⟩)
    ∧ validate_with_model "TooledAgent" (some tooledConfig)
        (.pinst ⟨"TooledConfig",
          [("model", .vstr "gpt-4o-mini"), ("temperature", .vfloat 0),
           ("max_tokens", .vint 256), ("lang", .vstr "es"),
           ("system_prompt",
            .vstr "Eres un agente útil. Usa herramientas cuando sea necesario.")]⟩) "config"
      = .ok (some ⟨"TooledConfig",
          [("model", .vstr "gpt-4o-mini"), ("temperature", .vfloat 0),
           ("max_tokens", .vint 256), ("lang", .vstr "es"),
           ("system_prompt",
            .vstr "Eres un agente útil. Usa herramientas cuando sea necesario.")]⟩) := by
  have h1 : validate_with_model "TooledAgent" (some tooledConfig) (.pdict []) "config"
      = .ok (some ⟨"TooledConfig",
          [("model", .vstr "gpt-4o-mini"), ("temperature", .vfloat 0),
           ("max_tokens", .vint 256), ("lang", .vstr "es"),
           ("system_prompt",
            .vstr "Eres un agente útil. Usa herramientas cuando sea necesario.")]⟩) := by
    decide
  exact ⟨h1, (c3_validate_idempotent "TooledAgent" "config" tooledConfig).2 _ _ h1⟩

theorem c7_witness :
    pyOr (lastByName [⟨"wikipedia", 1⟩] "wikipedia")
        (firstByName [⟨"wikipedia", 2⟩] "wikipedia") = some ⟨"wikipedia", 1⟩
    ∧ merge_tools [⟨"wikipedia", 1⟩] [⟨"wikipedia", 2⟩] = [⟨"wikipedia", 1⟩]
    ∧ ((merge_tools [⟨"wikipedia", 1⟩] [⟨"wikipedia", 2⟩]).map
        (fun t => t.tname)).Nodup := by
  have h := c7_merge_tools [⟨"wikipedia", 1⟩] [⟨"wikipedia", 2⟩]
  exact ⟨h.2.2.1 ⟨"wikipedia", 1⟩ (by decide), h.2.2.2.2, h.1⟩

theorem c8_witness :
    (((⟨[("r1", startRecord "llm" ["hi"] "r1" none 0)], []⟩ :
        TracerState).calls.map Prod.fst).Nodup
      ∧ "r1" ∈ ((⟨[("r1", startRecord "llm" ["hi"] "r1" none 0)], []⟩ :
          TracerState).calls.map Prod.fst)
      ∧ "r2" ∉ ((⟨[("r1", startRecord "llm" ["hi"] "r1" none 0)], []⟩ :
          TracerState).calls.map Prod.fst))
    ∧ end_common (fun _ _ => 0) ⟨none, []⟩ "r2" 1
        ⟨[("r1", startRecord "llm" ["hi"] "r1" none 0)], []⟩
        = ⟨[("r1", startRecord "llm" ["hi"] "r1" none 0)], []⟩
    ∧ on_llm_error "boom" "r2" 1 ⟨[("r1", startRecord "llm" ["hi"] "r1" none 0)], []⟩
        = ⟨[("r1", startRecord "llm" ["hi"] "r1" none 0)], []⟩
    ∧ (end_common (fun _ _ => 0) ⟨none, []⟩ "r1" 2
        (end_common (fun _ _ => 0) ⟨none, []⟩ "r1" 1
          ⟨[("r1", startRecord "llm" ["hi"] "r1" none 0)], []⟩)).finished.length
        = ([] : List CallRec).length + 1 := by
  have hno := (c8_inflight_invariant (fun _ _ => 0) ⟨none, []⟩ ⟨none, []⟩ "boom" "r2"
    "llm" ["hi"] none 1 2 0 ⟨[("r1", startRecord "llm" ["hi"] "r1" none 0)], []⟩).1
    (by decide)
  have hyes := (c8_inflight_invariant (fun _ _ => 0) ⟨none, []⟩ ⟨none, []⟩ "boom" "r1"
    "llm" ["hi"] none 1 2 0 ⟨[("r1", startRecord "llm" ["hi"] "r1" none 0)], []⟩).2.1
    (by decide) (by decide)
  exact ⟨⟨by decide, by decide, by decide⟩, hno.1, hno.2, hyes.2.2⟩

theorem c9_witness :
    0 < 10 + 5
    ∧ (∃ rec, (end_common (fun _ _ => 0)
        ⟨some ⟨some ⟨some 10, some 5, none⟩, none, none, some "gpt-4o-mini", none⟩, []⟩
        "r1" 1 (start_common "llm" ["hi"] "r1" none 0 ⟨[], []⟩)).finished = [rec]
      ∧ rec.prompt_tokens = 10 ∧ rec.completion_tokens = 5
      ∧ rec.total_tokens = 10 + 5
      ∧ rec.model = some "gpt-4o-mini"
      ∧ rec.cost_usd = pyRound8 ((10 : ℚ) / 1000 * (match_pricing "gpt-4o-mini").1
          + (5 : ℚ) / 1000 * (match_pricing "gpt-4o-mini").2))
    ∧ pyRound8 ((10 : ℚ) / 1000 * (match_pricing "gpt-4o-mini").1
        + (5 : ℚ) / 1000 * (match_pricing "gpt-4o-mini").2) = 9 / 2000 := by
  refine ⟨by decide, ?_, ?_⟩
  · exact (c9_cost_accounting (fun _ _ => 0) 10 5 "gpt-4o-mini" "r1" "llm" ["hi"]
      none 0 1 ⟨[], []⟩ (by decide)).1
  · have hmp : match_pricing "gpt-4o-mini" = ((0.15 : ℚ), (0.60 : ℚ)) := rfl
    rw [hmp]
    have hval : ((10 : ℚ) / 1000 * (0.15 : ℚ) + (5 : ℚ) / 1000 * (0.60 : ℚ))
        = 9 / 2000 := by norm_num
    rw [hval, pyRound8, roundHalfEven]
    norm_num

theorem c10_witness :
    ZeroInflight ⟨[("r1", startRecord "llm" ["hi"] "r1" none 0)], []⟩
    ∧ total_prompt (on_llm_error "boom" "r1" 2
        ⟨[("r1", startRecord "llm" ["hi"] "r1" none 0)], []⟩).finished
        = total_prompt ([] : List CallRec)
    ∧ total_cost (on_llm_error "boom" "r1" 2
        ⟨[("r1", startRecord "llm" ["hi"] "r1" none 0)], []⟩).finished
        = total_cost ([] : List CallRec) := by
  have hz : ZeroInflight ⟨[("r1", startRecord "llm" ["hi"] "r1" none 0)], []⟩ := by
    intro p hp
    have hp1 : p = ("r1", startRecord "llm" ["hi"] "r1" none 0) := by simpa using hp
    rw [hp1]
    exact ⟨rfl, rfl, rfl, rfl⟩
  have h := (c10_error_zero_contribution "boom" "r1" "llm" ["hi"] none 2 0
    ⟨[("r1", startRecord "llm" ["hi"] "r1" none 0)], []⟩).2.2.1 hz
  exact ⟨hz, h.1, h.2.2.2⟩
